import Mathlib

/-! Verification of the proposal-review pipeline of this repository
(module proposal_reviewer: section segmentation, model-response parsing,
rule-based scoring, batch review, and revised-document assembly).

Texts are modelled as lists of characters (Python str indexing is by code
point, matching Lean Char).  The heading regular expressions of
ProposalReviewer._extract_sections use only literals, character classes,
a one-or-more quantifier on a class, and an optional class, so they are
embedded as a small regex AST with a backtracking matcher whose priority
order (greedy first) matches Python re semantics for these patterns.
Python str whitespace (\s and str.strip) is modelled by the Unicode
whitespace set below; the \d digit class is modelled as the ASCII digits,
which is the subset exercised by the repository's prompts and tests.
-/

set_option maxRecDepth 100000

namespace NSFC

abbrev Str := List Char

/-- The Unicode whitespace characters recognised by Python str.strip()
and the re \s class (for str patterns). -/
def pySpaceChars : List Char :=
  [' ', '\t', '\n', '\r', '\x0b', '\x0c',
   '\x1c', '\x1d', '\x1e', '\x1f', '\x85', '\xa0',
   ' ', ' ', ' ', ' ', ' ', ' ', ' ',
   ' ', ' ', ' ', ' ', ' ',
   ' ', ' ', ' ', ' ', '　']

def pySpace (c : Char) : Bool := pySpaceChars.contains c

/-- Python str.strip(): remove leading and trailing whitespace. -/
def stripPy (s : Str) : Str :=
  ((s.dropWhile pySpace).reverse.dropWhile pySpace).reverse

/-- Does the first list occur as a prefix of the second? -/
def startsWith : Str → Str → Bool
  | [], _ => true
  | _ :: _, [] => false
  | p :: ps, c :: cs => p == c && startsWith ps cs

/-- Regex abstract syntax covering the heading patterns of
ProposalReviewer._extract_sections and the checks of _review_rule_based:
literals, a single character class, a class repeated one or more times
(greedy), an optional class (greedy), and concatenation. -/
inductive RE : Type
  | lit : Str → RE
  | cls : List Char → RE
  | plusCls : List Char → RE
  | optCls : List Char → RE
  | cat : RE → RE → RE

/-- All match lengths of a pattern at the head of a string, in Python
backtracking priority order (greedy alternatives first).  The head of the
returned list is the length re.match would report. -/
def matchLens : RE → Str → List Nat
  | RE.lit p, s => if startsWith p s then [p.length] else []
  | RE.cls cs, s =>
    match s with
    | [] => []
    | c :: _ => if cs.contains c then [1] else []
  | RE.plusCls cs, s =>
    let k := (s.takeWhile (fun c => cs.contains c)).length
    (List.range k).map (fun i => k - i)
  | RE.optCls cs, s =>
    (match s with
     | [] => []
     | c :: _ => if cs.contains c then [1] else []) ++ [0]
  | RE.cat a b, s =>
    (matchLens a s).flatMap (fun n => (matchLens b (s.drop n)).map (fun m => n + m))

/-- Leftmost search, as re.search / the first element of re.finditer:
the first start offset at which the pattern matches, together with the
length of the match taken there. -/
def searchAux (re : RE) : Str → Nat → Option (Nat × Nat)
  | s, i =>
    match (matchLens re s).head? with
    | some n => some (i, n)
    | none =>
      match s with
      | [] => none
      | _ :: s' => searchAux re s' (i + 1)

def reSearch (re : RE) (s : Str) : Option (Nat × Nat) := searchAux re s 0

/-- The separator class [\s、\.．] used by the numbered heading patterns. -/
def sepChars : List Char := pySpaceChars ++ ['、', '.', '．']

def relit (s : String) : RE := RE.lit s.toList

/-- Numbered heading pattern [N...][\s、\.．]+TITLE. -/
def numbered (digits : List Char) (title : String) : RE :=
  RE.cat (RE.cls digits) (RE.cat (RE.plusCls sepChars) (RE.lit title.toList))

/-- The section_patterns table of ProposalReviewer._extract_sections, in
source order: for each canonical section name, its heading patterns in
priority order. -/
def sectionPatterns : List (String × List RE) :=
  [("立项依据",
    [numbered ['一', '1', '１'] "立项依据",
     RE.cat (relit "立项依据") (RE.cat (RE.cls ['与', '和', '及']) (relit "研究内容")),
     relit "项目的立项依据",
     RE.cat (relit "研究背景") (RE.cat (RE.optCls ['与', '和', '及']) (relit "意义"))]),
   ("研究内容",
    [numbered ['二', '2', '２'] "研究内容",
     relit "主要研究内容",
     RE.cat (relit "研究内容") (RE.cat (RE.cls ['与', '和', '及']) (relit "目标"))]),
   ("研究方案",
    [numbered ['三', '3', '３'] "研究方案",
     RE.cat (relit "研究方案") (RE.cat (RE.cls ['与', '和', '及']) (relit "可行性")),
     relit "技术路线",
     relit "研究方法"]),
   ("创新点",
    [numbered ['四', '4', '４'] "创新点",
     RE.cat (relit "特色") (RE.cat (RE.cls ['与', '和', '及']) (relit "创新")),
     relit "创新之处",
     relit "项目创新"]),
   ("预期成果",
    [numbered ['五', '5', '５'] "预期成果",
     relit "预期研究成果",
     relit "预期目标",
     relit "考核指标"]),
   ("研究基础",
    [numbered ['六', '6', '６'] "研究基础",
     relit "工作基础",
     RE.cat (relit "研究基础") (RE.cat (RE.cls ['与', '和', '及']) (relit "工作条件")),
     relit "前期工作"])]

/-- First pattern of the list that matches anywhere in the text (the
inner loop with break of _extract_sections). -/
def firstMatchOf : List RE → Str → Option (Nat × Nat)
  | [], _ => none
  | r :: rs, s =>
    match reSearch r s with
    | some pn => some pn
    | none => firstMatchOf rs s

/-- The (start offset, section name, matched heading text) triples
collected by _extract_sections before sorting, in table order. -/
def scanPositions (text : Str) : List (Nat × String × Str) :=
  sectionPatterns.filterMap (fun e =>
    (firstMatchOf e.2 text).map (fun pn => (pn.1, e.1, (text.drop pn.1).take pn.2)))

/-- Ordering on position triples used by section_positions.sort
(key: start offset; Python sort is stable). -/
def posLe (a b : Nat × String × Str) : Prop := a.1 ≤ b.1

instance : DecidableRel posLe := fun a b => Nat.decLe a.1 b.1

instance : IsTotal (Nat × String × Str) posLe := ⟨fun a b => Nat.le_total a.1 b.1⟩

instance : IsTrans (Nat × String × Str) posLe := ⟨fun _ _ _ h1 h2 => Nat.le_trans h1 h2⟩

def sortedPositions (text : Str) : List (Nat × String × Str) :=
  List.insertionSort posLe (scanPositions text)

def offsets (text : Str) : List Nat := (sortedPositions text).map (fun e => e.1)

/-- Consecutive spans over a list of start offsets: each span runs from
its offset to the next offset, the last one to the end of the text. -/
def spansOf : List Nat → Nat → List (Nat × Nat)
  | [], _ => []
  | q :: rest, len => (q, rest.headD len) :: spansOf rest len

def spanList (text : Str) : List (Nat × Nat) := spansOf (offsets text) text.length

/-- Content of one section: the slice of the text over its span, stripped,
with the matched heading removed from the front (re.sub with an anchored
escaped title), stripped again. -/
def sectionContent (text : Str) (start stop : Nat) (title : Str) : Str :=
  let slice := (text.drop start).take (stop - start)
  let c1 := stripPy slice
  let c2 := if startsWith title c1 then c1.drop title.length else c1
  stripPy c2

/-- All sections with their contents, before the minimum-length filter. -/
def rawSections (text : Str) : List (String × Str) :=
  List.zipWith (fun (e : Nat × String × Str) (sp : Nat × Nat) =>
      (e.2.1, sectionContent text sp.1 sp.2 e.2.2))
    (sortedPositions text) (spanList text)

/-- ProposalReviewer._extract_sections: keep sections whose stripped
content is longer than 50 characters; if none survive, fall back to a
single catch-all section holding the whole input text. -/
def extractSections (text : Str) : List (String × Str) :=
  let secs := (rawSections text).filter (fun e => 50 < e.2.length)
  if secs.isEmpty then [("全文", text)] else secs

/-- Does the pattern occur as a contiguous substring (Python: pat in s)? -/
def occursIn (pat : Str) : Str → Bool
  | [] => startsWith pat []
  | c :: rest => startsWith pat (c :: rest) || occursIn pat rest

/-- One entry of REVIEW_CRITERIA: rubric keywords and review requirements. -/
structure Criteria where
  keywords : List String
  requirements : List String

def rationaleCriteria : Criteria :=
  { keywords := ["研究背景", "国内外", "研究现状", "意义", "必要性", "科学问题"]
    requirements :=
      ["是否清晰阐述研究背景", "是否全面综述国内外研究现状", "是否明确指出研究缺口",
       "是否论证研究的必要性和意义", "是否有规范的文献引用", "逻辑是否清晰连贯"] }

/-- ProposalReviewer.REVIEW_CRITERIA. -/
def reviewCriteria : List (String × Criteria) :=
  [("立项依据", rationaleCriteria),
   ("研究内容",
    { keywords := ["研究内容", "研究问题", "核心问题", "研究要点"]
      requirements :=
        ["是否明确核心研究问题", "研究内容是否具体可操作", "是否有清晰的层次结构",
         "是否紧扣研究目标", "研究范围是否适当"] }),
   ("研究方案",
    { keywords := ["技术路线", "研究方法", "实验", "步骤", "进度"]
      requirements :=
        ["技术路线是否清晰", "研究方法是否科学合理", "是否有详细的实施步骤",
         "是否说明关键技术难点", "进度安排是否合理", "是否论证可行性"] }),
   ("创新点",
    { keywords := ["创新", "特色", "首次", "新方法", "新理论"]
      requirements :=
        ["创新点是否明确具体", "是否区分创新类型", "是否与现有研究对比",
         "创新点是否有实质内容", "是否避免夸大其词"] }),
   ("预期成果",
    { keywords := ["成果", "论文", "专利", "指标", "应用"]
      requirements :=
        ["成果指标是否具体可量化", "是否包含学术成果", "是否说明应用价值",
         "指标是否合理可达", "是否有人才培养计划"] }),
   ("研究基础",
    { keywords := ["基础", "前期", "团队", "条件", "积累"]
      requirements :=
        ["是否展示相关研究积累", "是否介绍团队构成", "是否说明实验条件",
         "是否论证完成能力", "前期成果是否相关"] })]

/-- REVIEW_CRITERIA.get(name, REVIEW_CRITERIA["立项依据"]). -/
def criteriaFor (name : String) : Criteria :=
  (reviewCriteria.lookup name).getD rationaleCriteria

/-- The result record produced for every reviewed section. -/
structure ReviewResult where
  sectionName : String
  originalContent : Str
  issues : List Str
  suggestions : List Str
  revisedContent : Str
  score : ℤ
deriving DecidableEq

def digitChars : List Char := ['0', '1', '2', '3', '4', '5', '6', '7', '8', '9']

/-- The structure check of _review_rule_based: [（(][一二三四五1-5][）)]. -/
def structureRE : RE :=
  RE.cat (RE.cls ['（', '('])
    (RE.cat (RE.cls ['一', '二', '三', '四', '五', '1', '2', '3', '4', '5'])
      (RE.cls ['）', ')']))

def hasStructure (content : Str) : Bool := (reSearch structureRE content).isSome

/-- The citation check of _review_rule_based: bracketed number \[\d+\]. -/
def citationRE : RE :=
  RE.cat (RE.lit ['[']) (RE.cat (RE.plusCls digitChars) (RE.lit [']']))

def hasCitation (content : Str) : Bool := (reSearch citationRE content).isSome

/-- Python int() truncation toward zero on an exact rational score. -/
def pyInt (q : ℚ) : ℤ := if 0 ≤ q then Rat.floor q else -(Rat.floor (-q))

/-- ProposalReviewer._review_rule_based: base score 7, sequential
deductions, clamp of the truncated score at the end, and no rewriting. -/
def reviewRuleBased (sectionName : String) (content : Str) : ReviewResult :=
  let criteria := criteriaFor sectionName
  let st0 : List Str × List Str × ℚ := ([], [], 7)
  let st1 :=
    if content.length < 500 then
      (st0.1 ++ ["内容过于简短，缺乏详细论述".toList],
       st0.2.1 ++ ["建议扩充内容，增加具体细节和论证".toList],
       st0.2.2 - 1)
    else st0
  let missing := criteria.keywords.filter (fun kw => !(occursIn kw.toList content))
  let st2 :=
    if missing.isEmpty then st1
    else
      (st1.1 ++ [("缺少关键内容：" ++ String.intercalate ", " missing).toList],
       st1.2.1 ++ [("建议补充以下方面的内容：" ++ String.intercalate ", " missing).toList],
       st1.2.2 - missing.length * (1 / 2 : ℚ))
  let st3 :=
    if hasStructure content then st2
    else
      (st2.1 ++ ["缺乏清晰的层次结构".toList],
       st2.2.1 ++ ["建议使用（1）（2）（3）等方式组织内容层次".toList],
       st2.2.2)
  let st4 :=
    if sectionName == "立项依据" && !(hasCitation content) then
      (st3.1 ++ ["缺少文献引用标注".toList],
       st3.2.1 ++ ["建议添加规范的文献引用，如[1]、[2]等".toList],
       st3.2.2 - 1)
    else st3
  { sectionName := sectionName
    originalContent := content
    issues := if st4.1.isEmpty then ["内容基本符合要求".toList] else st4.1
    suggestions := if st4.2.1.isEmpty then ["可进一步优化细节".toList] else st4.2.1
    revisedContent := content
    score := max 1 (min 10 (pyInt st4.2.2)) }

def digitsVal (ds : Str) : Nat := ds.foldl (fun a c => 10 * a + (c.toNat - 48)) 0

/-- Try the score pattern 评分[：:]\s*(\d+) anchored at the head of s,
returning the captured integer. -/
def scoreAt (s : Str) : Option Nat :=
  let pre := "评分".toList
  if startsWith pre s then
    match s.drop pre.length with
    | c :: s2 =>
      if c = '：' ∨ c = ':' then
        let ds := (s2.dropWhile pySpace).takeWhile Char.isDigit
        if ds.isEmpty then none else some (digitsVal ds)
      else none
    | [] => none
  else none

/-- re.search of the score pattern: leftmost position where it matches. -/
def extractScore : Str → Option Nat
  | [] => none
  | c :: rest =>
    match scoreAt (c :: rest) with
    | some n => some n
    | none => extractScore rest

/-- Text after the first occurrence of pat (none when pat is absent). -/
def afterFirst (pat : Str) : Str → Option Str
  | [] => none
  | c :: rest =>
    if startsWith pat (c :: rest) then some ((c :: rest).drop pat.length)
    else afterFirst pat rest

/-- The optional colon [：:]? after a heading. -/
def skipColon : Str → Str
  | [] => []
  | c :: rest => if c = '：' ∨ c = ':' then rest else c :: rest

/-- Lazy capture up to the first position where the lookahead holds. -/
def takeUntilStop (stop : Str → Bool) : Str → Str
  | [] => []
  | c :: rest => if stop (c :: rest) then [] else c :: takeUntilStop stop rest

/-- Lookahead (?=##|修改建议|$) closing the issues block. -/
def stopIssues (s : Str) : Bool :=
  s == ['\n'] || startsWith "##".toList s || startsWith "修改建议".toList s

/-- Lookahead (?=##|修改后|$) closing the suggestions block. -/
def stopSuggestions (s : Str) : Bool :=
  s == ['\n'] || startsWith "##".toList s || startsWith "修改后".toList s

/-- Lookahead (?=\n\d+[\.\、]|\n\n|$) ending one numbered list item. -/
def itemStop (s : Str) : Bool :=
  match s with
  | [] => true
  | '\n' :: rest =>
    rest.isEmpty ||
    (match rest with
     | '\n' :: _ => true
     | _ =>
       let ds := rest.takeWhile Char.isDigit
       !ds.isEmpty &&
         (match rest.drop ds.length with
          | c :: _ => c == '.' || c == '、'
          | [] => false))
  | _ => false

/-- The lazy item body (.+?) with the item lookahead: consume non-newline
characters, stopping at the first position where the lookahead holds. -/
def grabGo : Str → Str → Option (Str × Str)
  | acc, [] => if itemStop [] then some (acc.reverse, []) else none
  | acc, d :: rem' =>
    if itemStop (d :: rem') then some (acc.reverse, d :: rem')
    else if d = '\n' then none
    else grabGo (d :: acc) rem'

def grabItem : Str → Option (Str × Str)
  | [] => none
  | c :: rest => if c = '\n' then none else grabGo [c] rest

/-- Greedy \s* before the item body, with backtracking: try the maximal
whitespace run first, then shorter runs. -/
def wsBacktrack (s2 : Str) : Nat → Option (Str × Str)
  | 0 => grabItem s2
  | w + 1 =>
    match grabItem (s2.drop (w + 1)) with
    | some r => some r
    | none => wsBacktrack s2 w

/-- One numbered item \d+[\.\、]\s*(.+?)(lookahead) anchored at the head,
returning the captured body and the rest of the string after the match. -/
def tryNumberedAt (s : Str) : Option (Str × Str) :=
  let ds := s.takeWhile Char.isDigit
  if ds.isEmpty then none
  else
    match s.drop ds.length with
    | c :: s2 =>
      if c = '.' ∨ c = '、' then wsBacktrack s2 (s2.takeWhile pySpace).length
      else none
    | [] => none

/-- re.findall of the numbered-item pattern: non-overlapping matches,
scanning left to right and resuming after each match.  Each successful
match consumes at least one character, so the string length bounds the
number of scanning steps. -/
def findNumberedAux : Nat → Str → List Str
  | 0, _ => []
  | _ + 1, [] => []
  | fuel + 1, c :: rest =>
    match tryNumberedAt (c :: rest) with
    | some (item, rem) => item :: findNumberedAux fuel rem
    | none => findNumberedAux fuel rest

def findNumbered (s : Str) : List Str := findNumberedAux s.length s

/-- Numbered list items extracted between a heading and its lookahead,
stripped, empty items dropped. -/
def extractItems (heading : String) (stop : Str → Bool) (resp : Str) : List Str :=
  match afterFirst heading.toList resp with
  | none => []
  | some tail =>
    let g := takeUntilStop stop ((skipColon tail).dropWhile pySpace)
    ((findNumbered g).map stripPy).filter (fun m => !m.isEmpty)

/-- ProposalReviewer._parse_review_response: score from the score line
(default 6, clamped), numbered issues and suggestions (placeholder when
empty), revised content from its heading to the end (the whole response
verbatim when the heading is absent). -/
def parseReviewResponse (sectionName : String) (original resp : Str) : ReviewResult :=
  let score : ℤ := match extractScore resp with | some n => (n : ℤ) | none => 6
  let issues := extractItems "主要问题" stopIssues resp
  let suggestions := extractItems "修改建议" stopSuggestions resp
  let revised :=
    match afterFirst "修改后的完整内容".toList resp with
    | some tail => stripPy ((skipColon tail).dropWhile pySpace)
    | none => resp
  { sectionName := sectionName
    originalContent := original
    issues := if issues.isEmpty then ["未能提取具体问题".toList] else issues
    suggestions := if suggestions.isEmpty then ["未能提取具体建议".toList] else suggestions
    revisedContent := revised
    score := min 10 (max 1 score) }

/-- The generation backend: generate(prompt, system_prompt) returning a
response, or raising (modelled as the error case). -/
abbrev Gen := Str → Str → Except String Str

def systemPromptText : String :=
  "你是一位资深的国家自然科学基金评审专家，具有丰富的项目评审经验。请提供专业、具体、建设性的评审意见。"

/-- The REVIEW_PROMPT template instantiated for a section (content
truncated to its first 3000 characters). -/
def promptOf (sectionName : String) (content : Str) : Str :=
  let criteria := criteriaFor sectionName
  let reqs := String.intercalate "\n" (criteria.requirements.map (fun r => "- " ++ r))
  ("你是一位资深的国家自然科学基金评审专家。请对以下申请书的\"" ++ sectionName ++
    "\"部分进行专业评审。\n\n【原文内容】\n").toList ++
  content.take 3000 ++
  ("\n\n【评审要求】\n请从以下几个方面进行评审：\n" ++ reqs ++
    "\n\n【输出格式】\n请按以下格式输出：\n\n## 评分：X/10\n\n## 主要问题\n1. 问题一\n2. 问题二\n...\n\n" ++
    "## 修改建议\n1. 建议一\n2. 建议二\n...\n\n## 修改后的完整内容\n（请输出修改后的完整内容，保持学术规范性）\n").toList

/-- ProposalReviewer._review_with_model: one backend call; on success the
response is parsed, on any exception the rule-based path is used. -/
def reviewWithModel (g : Gen) (sectionName : String) (content : Str) : ReviewResult :=
  match g (promptOf sectionName content) systemPromptText.toList with
  | Except.ok resp => parseReviewResponse sectionName content resp
  | Except.error _ => reviewRuleBased sectionName content

/-- ProposalReviewer.review_section: model-backed when requested and a
generator is configured, rule-based otherwise. -/
def reviewSection (g? : Option Gen) (useModel : Bool) (sectionName : String)
    (content : Str) : ReviewResult :=
  match useModel, g? with
  | true, some g => reviewWithModel g sectionName content
  | _, _ => reviewRuleBased sectionName content

/-- ProposalReviewer.review_full_proposal, from the segmented sections on:
each section is reviewed independently in order. -/
def reviewFullProposal (g? : Option Gen) (useModel : Bool)
    (sections : List (String × Str)) : List (String × ReviewResult) :=
  sections.map (fun e => (e.1, reviewSection g? useModel e.1 e.2))

/-- The fixed canonical section order used for reassembly. -/
def sectionOrder : List String :=
  ["立项依据", "研究内容", "研究方案", "创新点", "预期成果", "研究基础"]

def headerLine (name : String) : Str := ("\n## " ++ name ++ "\n").toList

/-- The lines list built by ProposalReviewer.generate_revised_proposal:
a preamble, then one loop over the canonical order emitting sections
present in the results, then one loop over the results emitting the
sections whose name is not canonical. -/
def revisedLines (results : List (String × ReviewResult)) : List Str :=
  ["# 国自然科学基金申请书（修改版）\n".toList, "---\n".toList] ++
  sectionOrder.flatMap (fun n =>
    match results.lookup n with
    | some r => [headerLine n, r.revisedContent, "\n".toList]
    | none => []) ++
  (results.filter (fun e => !(sectionOrder.contains e.1))).flatMap
    (fun e => [headerLine e.1, e.2.revisedContent, "\n".toList])

def joinSep (sep : Str) : List Str → Str
  | [] => []
  | [x] => x
  | x :: xs => x ++ sep ++ joinSep sep xs

/-- ProposalReviewer.generate_revised_proposal: the lines joined by
newlines. -/
def generateRevisedProposal (results : List (String × ReviewResult)) : Str :=
  joinSep "\n".toList (revisedLines results)

/-! ### Structural lemmas about the span decomposition -/

theorem spansOf_length (qs : List Nat) (len : Nat) :
    (spansOf qs len).length = qs.length := by
  induction qs with
  | nil => rfl
  | cons q rest ih => simp [spansOf, ih]

theorem spansOf_starts (qs : List Nat) (len : Nat) :
    (spansOf qs len).map Prod.fst = qs := by
  induction qs with
  | nil => rfl
  | cons q rest ih => simp [spansOf, ih]

theorem spansOf_chain (qs : List Nat) (len : Nat) :
    List.Chain' (fun a b => a.2 = b.1) (spansOf qs len) := by
  induction qs with
  | nil => exact List.chain'_nil
  | cons q rest ih =>
    cases rest with
    | nil => simp [spansOf]
    | cons q1 rest' =>
      have hcons : spansOf (q1 :: rest') len =
          (q1, rest'.headD len) :: spansOf rest' len := rfl
      rw [spansOf, hcons, List.chain'_cons]
      exact ⟨rfl, hcons ▸ ih⟩

theorem spansOf_last (qs : List Nat) (len : Nat) (h : qs ≠ []) :
    (spansOf qs len).getLast?.map Prod.snd = some len := by
  induction qs with
  | nil => exact absurd rfl h
  | cons q rest ih =>
    cases rest with
    | nil => rfl
    | cons q1 rest' =>
      have hcons : spansOf (q1 :: rest') len =
          (q1, rest'.headD len) :: spansOf rest' len := rfl
      rw [spansOf, hcons, List.getLast?_cons_cons, ← hcons]
      exact ih (by simp)

/-- Every offset position from the first matched offset to the end of the
text lies in exactly one span. -/
theorem spansOf_cover (len : Nat) :
    ∀ (qs : List Nat), List.Pairwise (· ≤ ·) qs →
      ∀ q0, qs.head? = some q0 → ∀ j, q0 ≤ j → j < len →
        ∃! i : Fin (spansOf qs len).length,
          ((spansOf qs len).get i).1 ≤ j ∧ j < ((spansOf qs len).get i).2
  | [], _, q0, h0, _, _, _ => by simp at h0
  | q :: rest, hp, q0, h0, j, hj0, hj1 => by
    have hq : q0 = q := by simpa using h0.symm
    cases rest with
    | nil =>
      refine ⟨⟨0, by simp [spansOf]⟩, ⟨?_, ?_⟩, ?_⟩
      · simpa [spansOf] using hq ▸ hj0
      · simpa [spansOf] using hj1
      · rintro ⟨i, hi⟩ -
        have : i = 0 := by
          simp [spansOf] at hi
          omega
        exact Fin.ext this
    | cons q1 rest' =>
      have hcons : spansOf (q :: q1 :: rest') len =
          (q, q1) :: spansOf (q1 :: rest') len := rfl
      by_cases hcase : j < q1
      · refine ⟨⟨0, by simp [spansOf]⟩, ⟨?_, ?_⟩, ?_⟩
        · simpa [hcons] using hq ▸ hj0
        · simpa [hcons] using hcase
        · rintro ⟨i, hi⟩ ⟨h1, h2⟩
          match i, hi with
          | 0, _ => rfl
          | Nat.succ m, hi =>
            exfalso
            have hm : m < (spansOf (q1 :: rest') len).length := by
              rw [hcons] at hi
              simpa using hi
            have hget : ((spansOf (q :: q1 :: rest') len).get ⟨m + 1, hi⟩) =
                ((spansOf (q1 :: rest') len).get ⟨m, hm⟩) := rfl
            have hfstmem : ((spansOf (q1 :: rest') len).get ⟨m, hm⟩).1 ∈ q1 :: rest' := by
              have hmem : ((spansOf (q1 :: rest') len).get ⟨m, hm⟩).1 ∈
                  (spansOf (q1 :: rest') len).map Prod.fst :=
                List.mem_map_of_mem Prod.fst (List.get_mem _ m hm)
              rwa [spansOf_starts] at hmem
            have hle : q1 ≤ ((spansOf (q1 :: rest') len).get ⟨m, hm⟩).1 := by
              rcases List.mem_cons.mp hfstmem with h | h
              · omega
              · exact (List.pairwise_cons.mp hp.of_cons).1 _ h
            rw [hget] at h1
            omega
      · push_neg at hcase
        obtain ⟨⟨k, hk⟩, hkprop, hkuniq⟩ :=
          spansOf_cover len (q1 :: rest') hp.of_cons q1 rfl j hcase hj1
        have hlen : k + 1 < (spansOf (q :: q1 :: rest') len).length := by
          rw [hcons]
          simpa using hk
        refine ⟨⟨k + 1, hlen⟩, ?_, ?_⟩
        · have hget : ((spansOf (q :: q1 :: rest') len).get ⟨k + 1, hlen⟩) =
              ((spansOf (q1 :: rest') len).get ⟨k, hk⟩) := rfl
          have hres := hkprop
          rw [← hget] at hres
          exact hres
        · rintro ⟨i, hi⟩ ⟨h1, h2⟩
          match i, hi with
          | 0, hi =>
            exfalso
            have : j < q1 := by simpa [hcons] using h2
            omega
          | Nat.succ m, hi =>
            have hm : m < (spansOf (q1 :: rest') len).length := by
              rw [hcons] at hi
              simpa using hi
            have hget : ((spansOf (q :: q1 :: rest') len).get ⟨m + 1, hi⟩) =
                ((spansOf (q1 :: rest') len).get ⟨m, hm⟩) := rfl
            have hpair := And.intro h1 h2
            rw [hget] at hpair
            have heq := hkuniq ⟨m, hm⟩ hpair
            have hval : m = k := by
              simpa using congrArg Fin.val heq
            subst hval
            rfl

theorem zip_sections_map_fst (text : Str) :
    ∀ (ps : List (Nat × String × Str)) (len : Nat),
      (List.zipWith (fun (e : Nat × String × Str) (sp : Nat × Nat) =>
          (e.2.1, sectionContent text sp.1 sp.2 e.2.2))
        ps (spansOf (ps.map (fun e => e.1)) len)).map Prod.fst
      = ps.map (fun e => e.2.1)
  | [], _ => rfl
  | e :: ps', len => by
    simpa [spansOf] using zip_sections_map_fst text ps' len

theorem zip_sections_length (text : Str) (ps : List (Nat × String × Str)) (len : Nat) :
    (List.zipWith (fun (e : Nat × String × Str) (sp : Nat × Nat) =>
        (e.2.1, sectionContent text sp.1 sp.2 e.2.2))
      ps (spansOf (ps.map (fun e => e.1)) len)).length = ps.length := by
  simp [List.length_zipWith, spansOf_length]

theorem rawSections_map_fst (text : Str) :
    (rawSections text).map Prod.fst = (sortedPositions text).map (fun e => e.2.1) :=
  zip_sections_map_fst text (sortedPositions text) text.length

theorem rawSections_length (text : Str) :
    (rawSections text).length = (sortedPositions text).length :=
  zip_sections_length text (sortedPositions text) text.length

theorem offsets_pairwise (text : Str) :
    List.Pairwise (· ≤ ·) (offsets text) := by
  have hs : List.Sorted posLe (sortedPositions text) :=
    List.sorted_insertionSort posLe (scanPositions text)
  unfold offsets
  rw [List.pairwise_map]
  exact hs

theorem scanPositions_name_mem (text : Str) :
    ∀ x ∈ scanPositions text, x.2.1 ∈ sectionPatterns.map Prod.fst := by
  intro x hx
  rcases List.mem_filterMap.mp hx with ⟨ent, hent, hmap⟩
  rcases Option.map_eq_some'.mp hmap with ⟨pn, _, hx2⟩
  rw [← hx2]
  exact List.mem_map_of_mem Prod.fst hent

theorem sortedPositions_name_mem (text : Str) :
    ∀ x ∈ sortedPositions text, x.2.1 ∈ sectionPatterns.map Prod.fst := by
  intro x hx
  exact scanPositions_name_mem text x
    (((List.perm_insertionSort posLe (scanPositions text)).mem_iff).mp hx)

theorem rawSections_name_mem (text : Str) :
    ∀ e ∈ rawSections text, e.1 ∈ sectionPatterns.map Prod.fst := by
  intro e he
  have h1 : e.1 ∈ (rawSections text).map Prod.fst := List.mem_map_of_mem Prod.fst he
  rw [rawSections_map_fst] at h1
  rcases List.mem_map.mp h1 with ⟨x, hx, hx2⟩
  rw [← hx2]
  exact sortedPositions_name_mem text x hx

/-! ### Claim theorems -/

/-- C1 (amended): for a text in which k ≥ 1 canonical headings match and
every extracted section passes the minimum-length filter, segment()
returns exactly k entries in ascending offset order; the spans (running
from each matched heading's start offset to the next matched heading's
start, the last one to the end of the text) are contiguous, and partition
the text from the first matched heading's offset onward (text before the
first heading belongs to no span); each entry's content is its span's
text with the matched heading stripped from the front. -/
theorem segment_partition (text : Str)
    (hk : sortedPositions text ≠ [])
    (hall : ∀ e ∈ rawSections text, 50 < e.2.length) :
    extractSections text = rawSections text
    ∧ (extractSections text).length = (sortedPositions text).length
    ∧ (extractSections text).map Prod.fst = (sortedPositions text).map (fun e => e.2.1)
    ∧ List.Pairwise (· ≤ ·) (offsets text)
    ∧ List.Chain' (fun a b => a.2 = b.1) (spanList text)
    ∧ (spanList text).getLast?.map Prod.snd = some text.length
    ∧ (∀ q0, (offsets text).head? = some q0 → ∀ j, q0 ≤ j → j < text.length →
        ∃! i : Fin (spanList text).length,
          ((spanList text).get i).1 ≤ j ∧ j < ((spanList text).get i).2) := by
  have hfilter : (rawSections text).filter (fun e => 50 < e.2.length) = rawSections text :=
    List.filter_eq_self.mpr (fun a ha => decide_eq_true (hall a ha))
  have hne : rawSections text ≠ [] := by
    intro h
    have hlen := rawSections_length text
    rw [h] at hlen
    exact hk (List.length_eq_zero.mp hlen.symm)
  have hext : extractSections text = rawSections text := by
    unfold extractSections
    rw [hfilter, if_neg]
    simpa [List.isEmpty_iff] using hne
  have hoffne : offsets text ≠ [] := by
    unfold offsets
    simpa using hk
  refine ⟨hext, ?_, ?_, offsets_pairwise text, spansOf_chain _ _, ?_, ?_⟩
  · rw [hext]; exact rawSections_length text
  · rw [hext]; exact rawSections_map_fst text
  · exact spansOf_last (offsets text) text.length hoffne
  · intro q0 h0 j hj0 hj1
    exact spansOf_cover text.length (offsets text) (offsets_pairwise text) q0 h0 j hj0 hj1

def tC1 : Str :=
  "一、立项依据".toList ++ List.replicate 60 'x' ++
  "二、研究内容".toList ++ List.replicate 60 'y'

/-- Witness for C1's amended theorem at a concrete two-heading document. -/
theorem segment_partition_witness :
    (extractSections tC1).length = (sortedPositions tC1).length ∧
    (extractSections tC1).map Prod.fst = (sortedPositions tC1).map (fun e => e.2.1) :=
  ⟨(segment_partition tC1 (by decide) (by decide)).2.1,
   (segment_partition tC1 (by decide) (by decide)).2.2.1⟩

def tC1pre : Str := "PREAMBLE... ".toList ++ "一、立项依据".toList ++ List.replicate 60 'x'

/-- Counterexample to C1 as stated: on a document with a preamble before
its first (and only) matched heading, all sections pass the length
filter, yet character position 0 of the text lies in no section span, so
the spans do not partition the text. -/
theorem segment_partition_counterexample :
    sortedPositions tC1pre ≠ []
    ∧ (∀ e ∈ rawSections tC1pre, 50 < e.2.length)
    ∧ ¬ (∃ i : Fin (spanList tC1pre).length,
          ((spanList tC1pre).get i).1 ≤ 0 ∧ 0 < ((spanList tC1pre).get i).2) := by
  exact ⟨by decide, by decide, by decide⟩

theorem firstMatchOf_eq_none (text : Str) :
    ∀ (rs : List RE), (∀ re ∈ rs, reSearch re text = none) → firstMatchOf rs text = none
  | [], _ => rfl
  | r :: rs, h => by
    have h1 : reSearch r text = none := h r (by simp)
    have h2 := firstMatchOf_eq_none text rs (fun re hre => h re (by simp [hre]))
    simp [firstMatchOf, h1, h2]

/-- C2: when none of the heading patterns matches anywhere in the input
text, segment() returns exactly one entry, the catch-all section 全文,
whose content is the entire input text unchanged. -/
theorem segment_no_heading_fallback (text : Str)
    (h : ∀ e ∈ sectionPatterns, ∀ re ∈ e.2, reSearch re text = none) :
    extractSections text = [("全文", text)] := by
  have hscan : scanPositions text = [] := by
    unfold scanPositions
    apply List.filterMap_eq_nil_iff.mpr
    intro ent hent
    have hfm : firstMatchOf ent.2 text = none :=
      firstMatchOf_eq_none text ent.2 (fun re hre => h ent hent re hre)
    simp [hfm]
  have hsorted : sortedPositions text = [] := by
    simp [sortedPositions, hscan]
  have hraw : rawSections text = [] := by
    simp [rawSections, hsorted]
  simp [extractSections, hraw]

/-- Witness for C2: a text containing no heading pattern at all. -/
theorem segment_no_heading_witness :
    extractSections "hello world".toList = [("全文", "hello world".toList)] :=
  segment_no_heading_fallback "hello world".toList (by decide)

def tC9 : Str := "一、立项依据".toList ++ List.replicate 50 'x'

/-- Counterexample to C9 as stated: a matched section whose stripped
content has exactly 50 characters — not below the stated 50-character
minimum — is nonetheless discarded, and segmentation falls back to the
catch-all section. -/
theorem min_length_counterexample :
    (rawSections tC9).map (fun e => e.2.length) = [50]
    ∧ extractSections tC9 = [("全文", tC9)] :=
  ⟨by decide, by decide⟩

/-- C9 (amended): during segmentation a matched section is kept in the
returned mapping exactly when its stripped content (after removing the
matched heading and surrounding whitespace) is strictly longer than 50
characters; a section whose stripped content length is at most 50 —
including exactly 50 — is discarded as noise. -/
theorem min_length_filter (text : Str) (e : String × Str) (he : e ∈ rawSections text) :
    e ∈ extractSections text ↔ 50 < e.2.length := by
  constructor
  · intro hm
    unfold extractSections at hm
    by_cases hemp : ((rawSections text).filter (fun x => 50 < x.2.length)).isEmpty
    · rw [if_pos hemp] at hm
      have h1 : e.1 ∈ sectionPatterns.map Prod.fst := rawSections_name_mem text e he
      have h2 : e = ("全文", text) := by simpa using hm
      rw [h2] at h1
      exact absurd h1 (show ("全文" : String) ∉ sectionPatterns.map Prod.fst by decide)
    · rw [if_neg hemp] at hm
      exact of_decide_eq_true (List.mem_filter.mp hm).2
  · intro hl
    have hmem : e ∈ (rawSections text).filter (fun x => 50 < x.2.length) :=
      List.mem_filter.mpr ⟨he, decide_eq_true hl⟩
    have hne : (rawSections text).filter (fun x => 50 < x.2.length) ≠ [] :=
      List.ne_nil_of_mem hmem
    unfold extractSections
    rw [if_neg (by simpa [List.isEmpty_iff] using hne)]
    exact hmem

def tC9b : Str := "一、立项依据".toList ++ List.replicate 60 'z'

/-- Witness for C9's amended theorem: a 60-character section is kept. -/
theorem min_length_filter_witness :
    ("立项依据", List.replicate 60 'z') ∈ extractSections tC9b :=
  (min_length_filter tC9b ("立项依据", List.replicate 60 'z') (by decide)).mpr (by decide)

/-- C10: segment() never returns an empty mapping: whenever the filtered
section list is empty — zero headings matched, or every matched section
was discarded by the minimum-length filter — the single catch-all section
holding the entire input text is returned instead. -/
theorem segment_nonempty (text : Str) :
    extractSections text ≠ []
    ∧ ((rawSections text).filter (fun e => 50 < e.2.length) = [] →
        extractSections text = [("全文", text)]) := by
  constructor
  · unfold extractSections
    by_cases h : ((rawSections text).filter (fun e => 50 < e.2.length)).isEmpty
    · rw [if_pos h]; simp
    · rw [if_neg h]
      simpa [List.isEmpty_iff] using h
  · intro hemp
    simp [extractSections, hemp]

def tC10 : Str := "一、立项依据".toList ++ List.replicate 30 'w'

/-- Witness for C10: a heading matches but its 30-character section is
discarded, and the catch-all still appears. -/
theorem segment_nonempty_witness :
    extractSections tC10 = [("全文", tC10)] :=
  (segment_nonempty tC10).2 (by decide)

theorem ruleBased_score_bounds (n : String) (c : Str) :
    1 ≤ (reviewRuleBased n c).score ∧ (reviewRuleBased n c).score ≤ 10 := by
  simp only [reviewRuleBased]
  exact ⟨le_max_left 1 _, max_le (by norm_num) (min_le_left _ _)⟩

theorem parse_score_bounds (n : String) (o r : Str) :
    1 ≤ (parseReviewResponse n o r).score ∧ (parseReviewResponse n o r).score ≤ 10 := by
  simp only [parseReviewResponse]
  exact ⟨le_min (by norm_num) (le_max_left 1 _), min_le_left _ _⟩

/-- C3: for every section name, content and backend (including any model
response, well-formed or garbled), the returned review score satisfies
1 ≤ score ≤ 10 — in model-backed mode and in rule-based mode alike. -/
theorem review_score_clamp (g? : Option Gen) (useModel : Bool)
    (name : String) (content : Str) :
    1 ≤ (reviewSection g? useModel name content).score
    ∧ (reviewSection g? useModel name content).score ≤ 10 := by
  cases useModel with
  | false => exact ruleBased_score_bounds name content
  | true =>
    cases g? with
    | none => exact ruleBased_score_bounds name content
    | some g =>
      show 1 ≤ (reviewWithModel g name content).score
        ∧ (reviewWithModel g name content).score ≤ 10
      unfold reviewWithModel
      cases g (promptOf name content) systemPromptText.toList with
      | ok resp => exact parse_score_bounds name content resp
      | error e => exact ruleBased_score_bounds name content

theorem placeholder_ne_nil {α : Type} (l d : List α) (hd : d ≠ []) :
    (if l.isEmpty then d else l) ≠ [] := by
  by_cases h : l.isEmpty
  · rw [if_pos h]
    exact hd
  · rw [if_neg h]
    intro hnil
    rw [hnil] at h
    exact h rfl

theorem ruleBased_nonempty (n : String) (c : Str) :
    (reviewRuleBased n c).issues ≠ [] ∧ (reviewRuleBased n c).suggestions ≠ [] := by
  simp only [reviewRuleBased]
  exact ⟨placeholder_ne_nil _ _ (by simp), placeholder_ne_nil _ _ (by simp)⟩

theorem parse_nonempty (n : String) (o r : Str) :
    (parseReviewResponse n o r).issues ≠ [] ∧ (parseReviewResponse n o r).suggestions ≠ [] := by
  simp only [parseReviewResponse]
  exact ⟨placeholder_ne_nil _ _ (by simp), placeholder_ne_nil _ _ (by simp)⟩

/-- C7: for every review produced by either mode, the issues and
suggestions lists are non-empty: a placeholder string is inserted into
each field whenever extraction or rule deductions yield nothing. -/
theorem review_nonempty_fields (g? : Option Gen) (useModel : Bool)
    (name : String) (content : Str) :
    (reviewSection g? useModel name content).issues ≠ []
    ∧ (reviewSection g? useModel name content).suggestions ≠ [] := by
  cases useModel with
  | false => exact ruleBased_nonempty name content
  | true =>
    cases g? with
    | none => exact ruleBased_nonempty name content
    | some g =>
      show (reviewWithModel g name content).issues ≠ []
        ∧ (reviewWithModel g name content).suggestions ≠ []
      unfold reviewWithModel
      cases g (promptOf name content) systemPromptText.toList with
      | ok resp => exact parse_nonempty name content resp
      | error e => exact ruleBased_nonempty name content

/-- C6: response parsing never fails: the score is the first score-line
match, defaulting to 6 when the score line is absent, then clamped to
[1,10]; the revised content is the stripped text following the
修改后的完整内容 heading to the end of the response, or the entire raw
response verbatim when that heading is absent — a well-formed
ReviewResult is produced for every response string. -/
theorem parse_response_defaults (n : String) (o resp : Str) :
    (parseReviewResponse n o resp).score
        = min 10 (max 1 (match extractScore resp with | some s => (s : ℤ) | none => 6))
    ∧ (extractScore resp = none → (parseReviewResponse n o resp).score = 6)
    ∧ (parseReviewResponse n o resp).revisedContent
        = (match afterFirst "修改后的完整内容".toList resp with
           | some tail => stripPy ((skipColon tail).dropWhile pySpace)
           | none => resp)
    ∧ (afterFirst "修改后的完整内容".toList resp = none →
        (parseReviewResponse n o resp).revisedContent = resp) := by
  refine ⟨rfl, ?_, rfl, ?_⟩
  · intro h
    simp only [parseReviewResponse, h]
    norm_num
  · intro h
    simp only [parseReviewResponse, h]

/-- Witness for C6 at a garbled response with no recognised headings. -/
theorem parse_response_defaults_witness :
    (parseReviewResponse "研究内容" [] "nonsense output".toList).score = 6
    ∧ (parseReviewResponse "研究内容" [] "nonsense output".toList).revisedContent
        = "nonsense output".toList :=
  ⟨(parse_response_defaults "研究内容" [] "nonsense output".toList).2.1 (by decide),
   (parse_response_defaults "研究内容" [] "nonsense output".toList).2.2.2 (by decide)⟩

/-- The rubric keywords absent from the content. -/
def missingKeywords (name : String) (content : Str) : List String :=
  (criteriaFor name).keywords.filter (fun kw => !(occursIn kw.toList content))

theorem ruleBased_score_formula (name : String) (content : Str) :
    (reviewRuleBased name content).score
      = max 1 (min 10 (pyInt
          ((7 : ℚ)
            - (if content.length < 500 then 1 else 0)
            - (missingKeywords name content).length * (1 / 2 : ℚ)
            - (if name = "立项依据" ∧ hasCitation content = false then 1 else 0)))) := by
  simp only [reviewRuleBased, missingKeywords]
  generalize List.filter (fun kw => !(occursIn kw.toList content)) (criteriaFor name).keywords = m
  by_cases h1 : content.length < 500 <;>
  by_cases h2 : m = [] <;>
  by_cases h4 : name = "立项依据" <;>
  by_cases h5 : hasCitation content = true <;>
  simp_all [List.isEmpty_iff, apply_ite, -not_lt, -Nat.not_lt]

theorem ruleBased_structure_issue (name : String) (content : Str)
    (h : hasStructure content = false) :
    "缺乏清晰的层次结构".toList ∈ (reviewRuleBased name content).issues := by
  simp only [reviewRuleBased, h]
  repeat' split
  all_goals simp_all [List.isEmpty_iff, List.append_eq_nil, List.mem_append]

theorem ruleBased_missing_issue (name : String) (content : Str)
    (h : missingKeywords name content ≠ []) :
    ("缺少关键内容：" ++ String.intercalate ", " (missingKeywords name content)).toList
      ∈ (reviewRuleBased name content).issues := by
  simp only [missingKeywords] at h
  have hemp : (List.filter (fun kw => !(occursIn kw.toList content))
      (criteriaFor name).keywords).isEmpty = false := by
    simpa [List.isEmpty_iff] using h
  simp only [reviewRuleBased, missingKeywords, hemp]
  repeat' split
  all_goals simp_all [List.isEmpty_iff, List.append_eq_nil, List.mem_append]

/-- C4: rule-based review starts from base score 7 and deducts exactly:
1 when the content is shorter than 500 characters; 0.5 per rubric keyword
absent from the content, all missing keywords accumulated into a single
issue and a single suggestion; nothing for a missing parenthesized
enumeration (a structural issue is added but no deduction); and 1 when
the section is 立项依据 and no bracketed citation like [1] occurs.  The
final score is the truncated value clamped to [1,10], and the revised
content equals the original content exactly. -/
theorem rule_based_review_spec (name : String) (content : Str) :
    (reviewRuleBased name content).score
      = max 1 (min 10 (pyInt
          ((7 : ℚ)
            - (if content.length < 500 then 1 else 0)
            - (missingKeywords name content).length * (1 / 2 : ℚ)
            - (if name = "立项依据" ∧ hasCitation content = false then 1 else 0))))
    ∧ (reviewRuleBased name content).revisedContent = content
    ∧ (reviewRuleBased name content).originalContent = content
    ∧ (hasStructure content = false →
        "缺乏清晰的层次结构".toList ∈ (reviewRuleBased name content).issues)
    ∧ (missingKeywords name content ≠ [] →
        ("缺少关键内容：" ++ String.intercalate ", " (missingKeywords name content)).toList
          ∈ (reviewRuleBased name content).issues) :=
  ⟨ruleBased_score_formula name content, rfl, rfl,
   fun h => ruleBased_structure_issue name content h,
   fun h => ruleBased_missing_issue name content h⟩

/-- Witness for C4 at a short content with missing keywords, no
enumeration structure and a non-Rationale section name. -/
theorem rule_based_review_witness :
    (reviewRuleBased "研究方案" "abc".toList).revisedContent = "abc".toList
    ∧ "缺乏清晰的层次结构".toList ∈ (reviewRuleBased "研究方案" "abc".toList).issues :=
  ⟨(rule_based_review_spec "研究方案" "abc".toList).2.1,
   (rule_based_review_spec "研究方案" "abc".toList).2.2.2.1 (by decide)⟩

/-- C5: reviewing a batch of sections yields exactly one result per
section, in order, with every section name preserved; when the backend
raises on some section, that section's result is exactly its rule-based
review — the failure is absorbed there and neither aborts the batch nor
affects sibling sections. -/
theorem batch_isolation (g : Gen) (sections : List (String × Str)) :
    (reviewFullProposal (some g) true sections).length = sections.length
    ∧ (reviewFullProposal (some g) true sections).map Prod.fst = sections.map Prod.fst
    ∧ ∀ i (h : i < sections.length),
        (∃ msg, g (promptOf (sections.get ⟨i, h⟩).1 (sections.get ⟨i, h⟩).2)
            systemPromptText.toList = Except.error msg) →
        (reviewFullProposal (some g) true sections).get
            ⟨i, by simpa [reviewFullProposal] using h⟩
          = ((sections.get ⟨i, h⟩).1,
             reviewRuleBased (sections.get ⟨i, h⟩).1 (sections.get ⟨i, h⟩).2) := by
  refine ⟨by simp [reviewFullProposal], ?_, ?_⟩
  · simp [reviewFullProposal, List.map_map]
  · intro i h herr
    obtain ⟨msg, hmsg⟩ := herr
    simp only [reviewFullProposal]
    rw [List.get_map]
    show ((sections.get ⟨i, h⟩).1,
        reviewWithModel g (sections.get ⟨i, h⟩).1 (sections.get ⟨i, h⟩).2) = _
    unfold reviewWithModel
    rw [hmsg]

def genFail : Gen := fun _ _ => Except.error "backend down"

def tSecs : List (String × Str) :=
  [("立项依据", List.replicate 60 'a'),
   ("研究内容", List.replicate 60 'b'),
   ("研究方案", List.replicate 60 'c')]

/-- Witness for C5: a backend that raises on every call still yields one
result per section, with the middle section scored rule-based. -/
theorem batch_isolation_witness :
    (reviewFullProposal (some genFail) true tSecs).length = 3
    ∧ (reviewFullProposal (some genFail) true tSecs).get ⟨1, by
          simpa [reviewFullProposal] using (by decide : (1 : Nat) < tSecs.length)⟩
        = ("研究内容", reviewRuleBased "研究内容" (List.replicate 60 'b')) :=
  ⟨(batch_isolation genFail tSecs).1,
   (batch_isolation genFail tSecs).2.2 1 (by decide) ⟨"backend down", rfl⟩⟩

/-- The results rearranged into assembly order: canonically named
sections first, in the fixed canonical order, then all remaining results
in their original encounter order; results absent from the mapping
contribute nothing. -/
def orderedResults (results : List (String × ReviewResult)) :
    List (String × ReviewResult) :=
  sectionOrder.filterMap (fun n => (results.lookup n).map (fun r => (n, r)))
  ++ results.filter (fun e => !(sectionOrder.contains e.1))

theorem flatMap_lookup_eq (results : List (String × ReviewResult)) :
    ∀ (ns : List String),
      ns.flatMap (fun n =>
        match results.lookup n with
        | some r => [headerLine n, r.revisedContent, "\n".toList]
        | none => [])
      = (ns.filterMap (fun n => (results.lookup n).map (fun r => (n, r)))).flatMap
          (fun e => [headerLine e.1, e.2.revisedContent, "\n".toList])
  | [] => rfl
  | n :: ns => by
    have ih := flatMap_lookup_eq results ns
    cases h : results.lookup n with
    | some r =>
      simp only [List.flatMap_cons, List.filterMap_cons, h, Option.map_some']
      rw [ih]
    | none =>
      simp only [List.flatMap_cons, List.filterMap_cons, h, Option.map_none']
      simpa using ih

/-- C8: the revised proposal emits section headers and revised bodies in
the fixed canonical order 立项依据, 研究内容, 研究方案, 创新点,
预期成果, 研究基础 regardless of the results' insertion order; every
result whose name is not canonical is appended afterward in its original
encounter order; sections absent from the results are simply omitted:
the emitted lines are the preamble followed by exactly one
header/body/newline group per entry of the canonically ordered results. -/
theorem revised_proposal_order (results : List (String × ReviewResult)) :
    revisedLines results
      = ["# 国自然科学基金申请书（修改版）\n".toList, "---\n".toList]
        ++ (orderedResults results).flatMap
            (fun e => [headerLine e.1, e.2.revisedContent, "\n".toList])
    ∧ generateRevisedProposal results
      = joinSep "\n".toList
          (["# 国自然科学基金申请书（修改版）\n".toList, "---\n".toList]
            ++ (orderedResults results).flatMap
                (fun e => [headerLine e.1, e.2.revisedContent, "\n".toList])) := by
  have hlines : revisedLines results
      = ["# 国自然科学基金申请书（修改版）\n".toList, "---\n".toList]
        ++ (orderedResults results).flatMap
            (fun e => [headerLine e.1, e.2.revisedContent, "\n".toList]) := by
    unfold revisedLines orderedResults
    rw [List.flatMap_append, flatMap_lookup_eq results sectionOrder]
    simp [List.append_assoc]
  exact ⟨hlines, by rw [generateRevisedProposal, hlines]⟩

end NSFC
